import Mathlib

/-!
Verification development for the resilink flood-damage analysis engine.

The repository's analysis core (DamageStateCalculator, FinancialEngine,
MappingResolver, CurveEvaluator, InterventionAdjuster) is a Python backend
whose sources are not shipped here; only its seed data (fragility-curve
JSON files) and the TypeScript frontend are.  Components marked
"Modelled from the spec" are therefore shallow embeddings built from the
specification text (and, for the curve evaluator, from the rule shape in
the seed fragility JSON files).  The frontend helpers
(`getMostLikelyDamageState`, `getFeatureStyle`) are embedded directly from
`frontend/app/runs/[id]/page.tsx`.
-/

open Real MeasureTheory Set

namespace Resilink

/-! ### DamageStateCalculator (spec §4.5) -/

/-- Modelled from the spec: DamageStateCalculator §4.5, tail of the
conversion.  Given the previous exceedance probability and the remaining
exceedance probabilities, produce the remaining damage-state
probabilities `P(DS_i) = e_{i-1} - e_i` and finally `P(DS_{n+1}) = e_n`,
clamping any negative value to 0 (§7: non-monotone exceedance
probabilities). -/
def dsGo {α : Type} [LinearOrderedField α] : α → List α → List α
  | prev, [] => [max prev 0]
  | prev, e :: rest => max (prev - e) 0 :: dsGo e rest

/-- Modelled from the spec: DamageStateCalculator §4.5
(`toDamageStates(orderedExceedanceProbabilities)`).
`P(DS_0) = 1 - e_0`, `P(DS_i) = e_{i-1} - e_i`, `P(DS_{n+1}) = e_n`,
with negative derived values clamped to 0 (§7). -/
def toDamageStates {α : Type} [LinearOrderedField α] : List α → List α
  | [] => [1]
  | e :: rest => max (1 - e) 0 :: dsGo e rest

/-- Modelled from the spec: §7 data-quality warning flag, tail part:
true when some derived damage-state value had to be clamped. -/
def dsWarnGo {α : Type} [LinearOrderedField α] : α → List α → Bool
  | prev, [] => decide (prev < 0)
  | prev, e :: rest => decide (prev - e < 0) || dsWarnGo e rest

/-- Modelled from the spec: §7 data-quality warning attached to a building
result when a negative derived damage-state probability was clamped;
the conversion itself never fails. -/
def dsWarning {α : Type} [LinearOrderedField α] : List α → Bool
  | [] => false
  | e :: rest => decide ((1 : α) - e < 0) || dsWarnGo e rest

/-! ### FinancialEngine (spec §4.6) -/

/-- A per-building financial input: the building's damage-state
distribution (absent when the building errored) and its asset value
(absent when never set).  Mirrors the data the engine reads from
completed per-building results. -/
structure BuildingFin where
  damageStates : Option (List ℚ)
  assetValue : Option ℚ

/-- Modelled from the spec: §4.6 Contract A per-building term,
`EAL_building = Σ_i P(DS_i) × damageRatio(DS_i) × assetValue`. -/
def ealBuilding (ratios dist : List ℚ) (value : ℚ) : ℚ :=
  (List.zipWith (fun p r => p * r) dist ratios).sum * value

/-- The financial summary produced by `expectedAnnualLoss`: total EAL,
number of buildings included (those with both a distribution and an
asset value), and the separately reported count of buildings lacking an
asset value. -/
structure EALSummary where
  total_eal : ℚ
  buildings_with_values : ℕ
  missing_value_count : ℕ
deriving DecidableEq

/-- Modelled from the spec: §4.6 Contract A
(`expectedAnnualLoss(perBuildingResults, assetValues, damageRatios)`).
Buildings with both a damage-state distribution and an asset value
contribute `ealBuilding` to the total; buildings lacking an asset value
are excluded from the total but counted separately. -/
def expectedAnnualLoss (ratios : List ℚ) : List BuildingFin → EALSummary
  | [] => ⟨0, 0, 0⟩
  | b :: bs =>
    let s := expectedAnnualLoss ratios bs
    match b.damageStates, b.assetValue with
    | some d, some v =>
        ⟨ealBuilding ratios d v + s.total_eal, s.buildings_with_values + 1,
          s.missing_value_count⟩
    | some _, none => ⟨s.total_eal, s.buildings_with_values, s.missing_value_count + 1⟩
    | none, some _ => ⟨s.total_eal, s.buildings_with_values, s.missing_value_count⟩
    | none, none => ⟨s.total_eal, s.buildings_with_values, s.missing_value_count + 1⟩

/-- The contribution of one building to the EAL total, when it has both a
distribution and an asset value. -/
def ealContribution (ratios : List ℚ) (b : BuildingFin) : Option ℚ :=
  match b.damageStates, b.assetValue with
  | some d, some v => some (ealBuilding ratios d v)
  | _, _ => none

/-- Payback period: a finite number of years, or the defined infinite
sentinel used when the EAL reduction is ≤ 0 (spec §4.6 Contract B). -/
inductive Payback where
  | years (y : ℚ) : Payback
  | infinite : Payback
deriving DecidableEq

/-- The comparison record produced by `compare` (spec §4.6 Contract B,
field names from the frontend `ComparisonResponse`). -/
structure ComparisonResult where
  eal_reduction : ℚ
  eal_reduction_percent : ℚ
  roi : ℚ
  payback_years : Payback
deriving DecidableEq

/-- Modelled from the spec: §4.6 Contract B
(`compare(baselineSummary, candidateSummary, candidateCost)`).
Reduction = baseline − candidate; reduction percent is expressed in
percent (×100, per the spec §8 example `reduction% 50.0` and the
frontend, which renders the field with a percent sign unscaled), and is
0 when the baseline total is 0; ROI = reduction/cost, 0 when cost is 0;
payback = cost/reduction, the infinite sentinel when reduction ≤ 0. -/
def compareRuns (baseline candidate cost : ℚ) : ComparisonResult :=
  let red := baseline - candidate
  { eal_reduction := red
    eal_reduction_percent := if baseline = 0 then 0 else red / baseline * 100
    roi := if cost = 0 then 0 else red / cost
    payback_years := if red ≤ 0 then Payback.infinite else Payback.years (cost / red) }

/-! ### MappingResolver (spec §4.2) -/

/-- Modelled from the spec: an attribute predicate of a mapping rule.
Either an explicit "any" wildcard on an attribute (matches even when the
attribute is missing), or a test applied to the attribute's value. -/
inductive AttrPred where
  | any (attr : String) : AttrPred
  | test (attr : String) (f : String → Bool) : AttrPred

/-- Modelled from the spec: §4.2 predicate evaluation against a
building's attribute record; a predicate over a missing attribute is
false unless explicitly defined as "any". -/
def evalPred (attrs : String → Option String) : AttrPred → Bool
  | AttrPred.any _ => true
  | AttrPred.test a f => (attrs a).elim false f

/-- A mapping rule: a list of attribute predicates and the curve-set
identifier to use when all of them match. -/
structure MappingRule where
  preds : List AttrPred
  curveSetId : String

/-- Modelled from the spec: a rule matches when every predicate in it
evaluates true against the building's attributes. -/
def ruleMatches (attrs : String → Option String) (r : MappingRule) : Bool :=
  r.preds.all (evalPred attrs)

/-- Modelled from the spec: §4.2
(`resolve(buildingAttributes, mappingRules) -> curveSetId | NOT_FOUND`).
Rules are evaluated in declared order, first match wins; `none` is the
NOT_FOUND outcome. -/
def resolve (attrs : String → Option String) : List MappingRule → Option String
  | [] => none
  | r :: rs => if ruleMatches attrs r then some r.curveSetId else resolve attrs rs

/-- Resolution mapped over a whole building dataset: every building gets
an outcome (NOT_FOUND is a per-building value, never a failure of the
whole pass). -/
def resolveAll (rules : List MappingRule)
    (buildings : List (String → Option String)) : List (Option String) :=
  buildings.map (fun b => resolve b rules)

/-! ### Frontend helpers, embedded from `frontend/app/runs/[id]/page.tsx` -/

/-- A JavaScript value in a GeoJSON property slot: `undefined`, `null`,
or a number (modelled as a rational). -/
inductive JVal where
  | undef : JVal
  | null : JVal
  | num (q : ℚ) : JVal
deriving DecidableEq

/-- JS numeric coercion applied by `?? 0` and by relational comparison of
nullish values (`ToNumber(null) = 0`). -/
def JVal.toNum : JVal → ℚ
  | JVal.num q => q
  | _ => 0

/-- The `damage_states` record of an `EALResponse.building_details` entry
(`P_DS0..P_DS3 : number | null`). -/
structure DamageStatesRec where
  P_DS0 : Option ℚ
  P_DS1 : Option ℚ
  P_DS2 : Option ℚ
  P_DS3 : Option ℚ
deriving DecidableEq

/-- One entry of the `states` array built inside
`getMostLikelyDamageState`: name, display label, probability, text
color. -/
structure MLEntry where
  name : String
  label : String
  prob : Option ℚ
  color : String

/-- The record returned by `getMostLikelyDamageState`. -/
structure MLResult where
  state : String
  probability : Option ℚ
  color : String
deriving DecidableEq

/-- The reduction step of `getMostLikelyDamageState`:
`(max, current) => current.prob > max.prob ? current : max`, with JS
comparison coercing `null` to 0; on ties the incumbent (earlier, lower
severity) entry is kept. -/
def pickML (acc cur : MLEntry) : MLEntry :=
  if cur.prob.getD 0 > acc.prob.getD 0 then cur else acc

/-- Embedded from `getMostLikelyDamageState`
(`frontend/app/runs/[id]/page.tsx` lines 223–242): if `P_DS0 === null`
return the Error state with probability 0, otherwise reduce the four
states keeping the strictly greater probability. -/
def getMostLikelyDamageState (ds : DamageStatesRec) : MLResult :=
  if ds.P_DS0 = none then ⟨"Error", some 0, "text-gray-500"⟩
  else
    let ml :=
      [(⟨"DS1", "Slight", ds.P_DS1, "text-yellow-600"⟩ : MLEntry),
        ⟨"DS2", "Moderate", ds.P_DS2, "text-orange-600"⟩,
        ⟨"DS3", "Substantial", ds.P_DS3, "text-red-600"⟩].foldl pickML
        ⟨"DS0", "No Damage", ds.P_DS0, "text-green-600"⟩
    ⟨ml.label, ml.prob, ml.color⟩

/-- Follows the claim's words (refinement target for C9): the index of
the damage state with the maximum probability among DS0..DS3, returning
the lowest-severity state among those tied for the maximum. -/
def specMostLikelyLow (v0 v1 v2 v3 : ℚ) : ℕ :=
  if v1 ≤ v0 ∧ v2 ≤ v0 ∧ v3 ≤ v0 then 0
  else if v2 ≤ v1 ∧ v3 ≤ v1 then 1
  else if v3 ≤ v2 then 2
  else 3

/-- Name of damage state `i`, as in the `states` array. -/
def dsName : ℕ → String
  | 0 => "DS0"
  | 1 => "DS1"
  | 2 => "DS2"
  | _ => "DS3"

/-- Display label of damage state `i`, as in the `states` array. -/
def dsLabel : ℕ → String
  | 0 => "No Damage"
  | 1 => "Slight"
  | 2 => "Moderate"
  | _ => "Substantial"

/-- Text color of damage state `i`, as in the `states` array. -/
def dsTextColor : ℕ → String
  | 0 => "text-green-600"
  | 1 => "text-yellow-600"
  | 2 => "text-orange-600"
  | _ => "text-red-600"

/-- The feature `properties` object read by `getFeatureStyle`: the
truthiness of `properties.error`, and the four damage-state probability
slots (which, being arbitrary GeoJSON, may be undefined). -/
structure FeatureProps where
  error : Bool
  P_DS0 : JVal
  P_DS1 : JVal
  P_DS2 : JVal
  P_DS3 : JVal
deriving DecidableEq

/-- The `L.CircleMarkerOptions` record produced by `getFeatureStyle`. -/
structure CircleMarkerOptions where
  radius : ℚ
  fillColor : String
  color : String
  weight : ℚ
  opacity : ℚ
  fillOpacity : ℚ
deriving DecidableEq

/-- `DS_COLORS` lookup by damage-state index. -/
def dsColorHex : ℕ → String
  | 0 => "#00FF00"
  | 1 => "#FFFF00"
  | 2 => "#FFA500"
  | _ => "#FF0000"

/-- The reduction step of `getFeatureStyle` over the keys `DS0..DS3`:
`(a, b) => (probs[a] ?? 0) > (probs[b] ?? 0) ? a : b`; on ties the
later (higher severity) key wins. -/
def pickKey (v : ℕ → ℚ) (a b : ℕ) : ℕ :=
  if v a > v b then a else b

/-- Embedded from `getFeatureStyle`
(`frontend/app/runs/[id]/page.tsx` lines 95–130): grey when `properties`
is absent, when `properties.error` is truthy, or when `P_DS0` is
undefined; otherwise the color of the key selected by the reduce; always
radius 6, stroke "#000", weight 1, opacity 1, fillOpacity 0.8. -/
def getFeatureStyle (props : Option FeatureProps) : CircleMarkerOptions :=
  let color :=
    match props with
    | none => "#808080"
    | some p =>
      if p.error then "#808080"
      else if p.P_DS0 ≠ JVal.undef then
        let v : ℕ → ℚ := fun i =>
          match i with
          | 0 => p.P_DS0.toNum
          | 1 => p.P_DS1.toNum
          | 2 => p.P_DS2.toNum
          | _ => p.P_DS3.toNum
        dsColorHex ([1, 2, 3].foldl (pickKey v) 0)
      else "#808080"
  ⟨6, color, "#000", 1, 1, 8/10⟩

/-- The index of the damage state with the maximum probability among
DS0..DS3, returning the highest-severity state among those tied for the
maximum (what `getFeatureStyle`'s reduce actually selects). -/
def specMostLikelyHigh (v0 v1 v2 v3 : ℚ) : ℕ :=
  if v0 ≤ v3 ∧ v1 ≤ v3 ∧ v2 ≤ v3 then 3
  else if v0 ≤ v2 ∧ v1 ≤ v2 then 2
  else if v0 ≤ v1 then 1
  else 0

/-! ### CurveEvaluator (spec §4.3) and InterventionAdjuster (spec §4.4) -/

/-- The standard normal cumulative distribution function
`Φ(z) = (√(2π))⁻¹ ∫_{-∞}^z e^{-t²/2} dt`, the `scipy.stats.norm.cdf`
called by the curve expressions in the seed fragility JSON. -/
noncomputable def normCdf (z : ℝ) : ℝ :=
  (Real.sqrt (2 * π))⁻¹ * ∫ t in Iic z, Real.exp (-(1/2) * t ^ 2)

/-- One limit-state rule's curve-fit constants μ and β, as in
`backend/app/seed_data/fragility_curves/*.json` (each rule there is
`Φ((ln(surgeLevel - elev) - μ)/β)` guarded by `surgeLevel - elev > 0`). -/
structure FragilityRule where
  mu : ℝ
  beta : ℝ

/-- Modelled from the spec: §4.3 rule evaluation — substitute demand and
parameters into the guard condition; if the guard (`demand - reference
> 0`, the rule shape of the seed fragility JSON) is false the exceedance
probability is 0, otherwise it is `Φ((ln(x) - μ)/β)` with
`x = demand - reference`; `ln` of a non-positive argument is never
taken. -/
noncomputable def evalRule (demand refElev : ℝ) (r : FragilityRule) : ℝ :=
  if 0 < demand - refElev then
    normCdf ((Real.log (demand - refElev) - r.mu) / r.beta)
  else 0

/-- Modelled from the spec: §4.3 — evaluate each limit-state rule of a
curve set in ascending severity order. -/
noncomputable def evalCurveSet (curves : List FragilityRule)
    (demand refElev : ℝ) : List ℝ :=
  curves.map (evalRule demand refElev)

/-- Modelled from the spec: §4.4 InterventionAdjuster — add each
elevation-type intervention's delta to the building's baseline
elevation; multiple interventions are summed; no interventions pass the
baseline through unmodified. -/
def adjustedElevation (base : ℝ) (deltas : List ℝ) : ℝ := base + deltas.sum

end Resilink

namespace Resilink

/-! ### Helper lemmas for the damage-state calculator -/

theorem dsGo_length {α : Type} [LinearOrderedField α] (prev : α) (rest : List α) :
    (dsGo prev rest).length = rest.length + 1 := by
  induction rest generalizing prev with
  | nil => rfl
  | cons e rest ih => simp [dsGo, ih]

theorem toDamageStates_length {α : Type} [LinearOrderedField α] (es : List α) :
    (toDamageStates es).length = es.length + 1 := by
  cases es with
  | nil => rfl
  | cons e rest => simp [toDamageStates, dsGo_length]

theorem dsGo_eq_zipWith {α : Type} [LinearOrderedField α] (prev : α) (rest : List α)
    (hchain : List.Chain (fun a b => b ≤ a) prev rest) (hprev : 0 ≤ prev)
    (hpos : ∀ x ∈ rest, 0 ≤ x) :
    dsGo prev rest = List.zipWith (fun a b => a - b) (prev :: rest) (rest ++ [0]) := by
  induction rest generalizing prev with
  | nil => simp [dsGo, max_eq_left hprev]
  | cons e rest ih =>
      rcases hchain with _ | ⟨hle, hchain⟩
      have he : 0 ≤ e := hpos e (List.mem_cons_self e rest)
      have hd : 0 ≤ prev - e := sub_nonneg.mpr hle
      simp only [dsGo, List.zipWith, List.cons_append]
      rw [max_eq_left hd, ih e hchain he (fun x hx => hpos x (List.mem_cons_of_mem e hx))]
      simp

theorem dsGo_nonneg {α : Type} [LinearOrderedField α] (prev : α) (rest : List α) :
    ∀ x ∈ dsGo prev rest, 0 ≤ x := by
  induction rest generalizing prev with
  | nil => intro x hx; simp [dsGo] at hx; simp [hx]
  | cons e rest ih =>
      intro x hx
      simp only [dsGo, List.mem_cons] at hx
      rcases hx with h | h
      · simp [h]
      · exact ih e x h

theorem dsGo_sum_of_no_warning {α : Type} [LinearOrderedField α] (prev : α) (rest : List α)
    (hw : dsWarnGo prev rest = false) : (dsGo prev rest).sum = prev := by
  induction rest generalizing prev with
  | nil =>
      simp only [dsWarnGo, decide_eq_false_iff_not, not_lt] at hw
      simp [dsGo, max_eq_left hw]
  | cons e rest ih =>
      simp only [dsWarnGo, Bool.or_eq_false_iff, decide_eq_false_iff_not, not_lt] at hw
      simp only [dsGo, List.sum_cons, max_eq_left hw.1, ih e hw.2]
      ring

theorem dsWarnGo_false_of_chain {α : Type} [LinearOrderedField α] (prev : α) (rest : List α)
    (hchain : List.Chain (fun a b => b ≤ a) prev rest) (hprev : 0 ≤ prev)
    (hpos : ∀ x ∈ rest, 0 ≤ x) :
    dsWarnGo prev rest = false := by
  induction rest generalizing prev with
  | nil => simpa [dsWarnGo, not_lt] using hprev
  | cons e rest ih =>
      rcases hchain with _ | ⟨hle, hchain⟩
      have he : 0 ≤ e := hpos e (List.mem_cons_self e rest)
      simp only [dsWarnGo, Bool.or_eq_false_iff, decide_eq_false_iff_not, not_lt]
      constructor
      · linarith
      · exact ih e hchain he (fun x hx => hpos x (List.mem_cons_of_mem e hx))

/-! ### Claim theorems C1 and C2 -/

/-- C1: for an ordered (non-increasing) list of limit-state exceedance
probabilities with entries in [0,1], `toDamageStates` produces the vector
`[1 - e_0, e_0 - e_1, …, e_{n-1} - e_n, e_n]` (expressed as a zipWith of
adjacent differences of `1 :: es` against `es ++ [0]`), which has
`es.length + 1` (that is, n+2) entries; in particular the input
`[0.80, 0.40, 0.05]` yields `[0.20, 0.40, 0.35, 0.05]`. -/
theorem toDamageStates_formula {α : Type} [LinearOrderedField α] (es : List α)
    (hmono : es.Chain' (fun a b => b ≤ a)) (hpos : ∀ x ∈ es, 0 ≤ x)
    (hle : ∀ x ∈ es, x ≤ 1) :
    toDamageStates es = List.zipWith (fun a b => a - b) (1 :: es) (es ++ [0]) ∧
    (toDamageStates es).length = es.length + 1 ∧
    toDamageStates [(80 : ℚ)/100, 40/100, 5/100] = [20/100, 40/100, 35/100, 5/100] := by
  refine ⟨?_, toDamageStates_length es, by norm_num [toDamageStates, dsGo]⟩
  cases es with
  | nil => simp [toDamageStates]
  | cons e rest =>
      have hchain : List.Chain (fun a b => b ≤ a) e rest := hmono
      have he1 : e ≤ 1 := hle e (List.mem_cons_self e rest)
      have he0 : 0 ≤ e := hpos e (List.mem_cons_self e rest)
      simp only [toDamageStates, List.zipWith, List.cons_append]
      rw [max_eq_left (by linarith : (0 : α) ≤ 1 - e),
        dsGo_eq_zipWith e rest hchain he0 (fun x hx => hpos x (List.mem_cons_of_mem e hx))]
      simp

/-- C1 witness: the theorem instantiated at the concrete input
`[0.80, 0.40, 0.05]`. -/
theorem toDamageStates_formula_witness :
    toDamageStates [(80 : ℚ)/100, 40/100, 5/100] =
      List.zipWith (fun a b => a - b) (1 :: [(80 : ℚ)/100, 40/100, 5/100])
        ([(80 : ℚ)/100, 40/100, 5/100] ++ [0]) ∧
    (toDamageStates [(80 : ℚ)/100, 40/100, 5/100]).length =
      [(80 : ℚ)/100, 40/100, 5/100].length + 1 ∧
    toDamageStates [(80 : ℚ)/100, 40/100, 5/100] = [20/100, 40/100, 35/100, 5/100] :=
  toDamageStates_formula [(80 : ℚ)/100, 40/100, 5/100] (by norm_num) (by norm_num)
    (by norm_num)

/-- C2 counterexample: the non-monotone input `[0.5, 0.8]` has all entries
in [0,1], yet after clamping the negative intermediate difference the
damage-state vector is `[0.5, 0, 0.8]`, whose sum 1.3 is not within 1e-9
of 1.0; the clamp is reported by the warning flag. -/
theorem toDamageStates_sum_cex :
    (∀ x ∈ [(1 : ℚ)/2, 4/5], 0 ≤ x ∧ x ≤ 1) ∧
    toDamageStates [(1 : ℚ)/2, 4/5] = [1/2, 0, 4/5] ∧
    dsWarning [(1 : ℚ)/2, 4/5] = true ∧
    ¬ |(toDamageStates [(1 : ℚ)/2, 4/5]).sum - 1| ≤ 1/1000000000 := by
  refine ⟨by norm_num, by norm_num [toDamageStates, dsGo], by norm_num [dsWarning, dsWarnGo], ?_⟩
  have hs : (toDamageStates [(1 : ℚ)/2, 4/5]).sum = 13/10 := by norm_num [toDamageStates, dsGo]
  rw [hs, show (13 : ℚ)/10 - 1 = 3/10 by norm_num,
    abs_of_nonneg (by norm_num : (0 : ℚ) ≤ 3/10)]
  norm_num

/-- C2 (amended): every entry of the damage-state vector is ≥ 0 for every
input; the vector sums to exactly 1 whenever no clamping occurred
(warning flag false), and the warning flag is false for every
non-increasing input with entries in [0,1].  A negative intermediate
difference is clamped to 0 and reported through the warning flag rather
than propagated (the conversion is a total function, so it never fails);
for non-monotone input the clamping can push the sum above 1, so the
sum-to-1 invariant is restricted to clamp-free inputs. -/
theorem toDamageStates_invariants {α : Type} [LinearOrderedField α] :
    (∀ es : List α, ∀ x ∈ toDamageStates es, 0 ≤ x) ∧
    (∀ es : List α, dsWarning es = false → (toDamageStates es).sum = 1) ∧
    (∀ es : List α, es.Chain' (fun a b => b ≤ a) → (∀ x ∈ es, 0 ≤ x) →
      (∀ x ∈ es, x ≤ 1) → dsWarning es = false) := by
  refine ⟨?_, ?_, ?_⟩
  · intro es x hx
    cases es with
    | nil => simp [toDamageStates] at hx; simp [hx]
    | cons e rest =>
        simp only [toDamageStates, List.mem_cons] at hx
        rcases hx with h | h
        · simp [h]
        · exact dsGo_nonneg e rest x h
  · intro es hw
    cases es with
    | nil => simp [toDamageStates]
    | cons e rest =>
        simp only [dsWarning, Bool.or_eq_false_iff, decide_eq_false_iff_not, not_lt] at hw
        simp only [toDamageStates, List.sum_cons, max_eq_left hw.1,
          dsGo_sum_of_no_warning e rest hw.2]
        ring
  · intro es hmono hpos hle
    cases es with
    | nil => rfl
    | cons e rest =>
        have hchain : List.Chain (fun a b => b ≤ a) e rest := hmono
        have he1 : e ≤ 1 := hle e (List.mem_cons_self e rest)
        have he0 : 0 ≤ e := hpos e (List.mem_cons_self e rest)
        simp only [dsWarning, Bool.or_eq_false_iff, decide_eq_false_iff_not, not_lt]
        exact ⟨by linarith,
          dsWarnGo_false_of_chain e rest hchain he0
            (fun x hx => hpos x (List.mem_cons_of_mem e hx))⟩

/-- C2 witness: the amended theorem applied at concrete inputs. -/
theorem toDamageStates_invariants_witness :
    (toDamageStates [(80 : ℚ)/100, 40/100, 5/100]).sum = 1 ∧
    dsWarning [(80 : ℚ)/100, 40/100, 5/100] = false ∧
    ∀ x ∈ toDamageStates [(1 : ℚ)/2, 4/5], 0 ≤ x :=
  ⟨toDamageStates_invariants.2.1 _
      (toDamageStates_invariants.2.2 [(80 : ℚ)/100, 40/100, 5/100] (by norm_num)
        (by norm_num) (by norm_num)),
    toDamageStates_invariants.2.2 [(80 : ℚ)/100, 40/100, 5/100] (by norm_num)
      (by norm_num) (by norm_num),
    toDamageStates_invariants.1 [(1 : ℚ)/2, 4/5]⟩

/-! ### Helper lemmas for the financial engine -/

theorem zipWith_mul_sum_eq (d : List ℚ) :
    ∀ r : List ℚ, (List.zipWith (fun p q => p * q) d r).sum =
      ∑ i ∈ Finset.range (min d.length r.length), d.getD i 0 * r.getD i 0 := by
  induction d with
  | nil => intro r; simp
  | cons p d ih =>
      intro r
      cases r with
      | nil => simp
      | cons q r =>
          simp only [List.zipWith, List.sum_cons, List.length_cons]
          rw [Nat.succ_min_succ, Finset.sum_range_succ']
          simp only [List.getD_cons_succ, List.getD_cons_zero]
          rw [ih r]
          ring

/-! ### Claim theorems C3 and C4 -/

/-- C3: the total EAL is exactly the sum of `Σ_i P(DS_i) × damageRatio(DS_i)
× assetValue` over the buildings that have both a damage-state
distribution and an asset value; buildings lacking an asset value are
not summed but are counted separately in the summary; and the concrete
example (asset value 1,000,000, ratios [0, 0.02, 0.10, 0.50],
distribution [0.20, 0.40, 0.35, 0.05]) yields 68,000. -/
theorem expectedAnnualLoss_spec :
    (∀ (ratios : List ℚ) (bs : List BuildingFin),
      (expectedAnnualLoss ratios bs).total_eal =
        (bs.filterMap (ealContribution ratios)).sum) ∧
    (∀ (ratios : List ℚ) (bs : List BuildingFin),
      (expectedAnnualLoss ratios bs).missing_value_count =
        (bs.filter (fun b => b.assetValue.isNone)).length) ∧
    (∀ (ratios dist : List ℚ) (v : ℚ),
      ealBuilding ratios dist v =
        (∑ i ∈ Finset.range (min dist.length ratios.length),
          dist.getD i 0 * ratios.getD i 0) * v) ∧
    ealBuilding [0, 2/100, 10/100, 50/100] [20/100, 40/100, 35/100, 5/100] 1000000 =
      68000 := by
  refine ⟨?_, ?_, ?_, by norm_num [ealBuilding]⟩
  · intro ratios bs
    induction bs with
    | nil => rfl
    | cons b bs ih =>
        rcases b with ⟨ds, av⟩
        rcases ds with _ | d <;> rcases av with _ | v <;>
          simp [expectedAnnualLoss, ealContribution, ih]
  · intro ratios bs
    induction bs with
    | nil => rfl
    | cons b bs ih =>
        rcases b with ⟨ds, av⟩
        rcases ds with _ | d <;> rcases av with _ | v <;>
          simp [expectedAnnualLoss, ih, Option.isNone]
  · intro ratios dist v
    rw [ealBuilding, zipWith_mul_sum_eq]

/-- C4 counterexample: at the spec §8 example (baseline 500,000,
candidate 250,000, cost 200,000) the reduction-percent field is 50 —
the reduction expressed in percent — not the ratio
`reduction / baseline = 0.5` the claim states. -/
theorem compareRuns_percent_cex :
    (compareRuns 500000 250000 200000).eal_reduction_percent = 50 ∧
    ((500000 : ℚ) - 250000) / 500000 = 1/2 ∧
    (compareRuns 500000 250000 200000).eal_reduction_percent ≠
      ((500000 : ℚ) - 250000) / 500000 := by
  norm_num [compareRuns]

/-- C4 (amended): `compare` returns reduction = baseline − candidate;
reduction percent = 100 × reduction / baseline, and 0 (not a division
fault) when the baseline total is 0; ROI = reduction / cost, and 0 when
cost is 0; payback = cost / reduction, and the infinite sentinel (not an
exception) when reduction ≤ 0.  Hence comparing a run against itself
yields reduction 0, ROI 0 and the infinite payback sentinel, and the
spec §8 example yields reduction 250,000, percent 50, ROI 1.25 and
payback 0.8 years. -/
theorem compareRuns_spec (b c cost : ℚ) :
    compareRuns b c cost =
      ⟨b - c,
        if b = 0 then 0 else (b - c) / b * 100,
        if cost = 0 then 0 else (b - c) / cost,
        if b - c ≤ 0 then Payback.infinite else Payback.years (cost / (b - c))⟩ ∧
    (compareRuns b b cost).eal_reduction = 0 ∧
    (compareRuns b b cost).roi = 0 ∧
    (compareRuns b b cost).payback_years = Payback.infinite ∧
    compareRuns 500000 250000 200000 = ⟨250000, 50, 125/100, Payback.years (8/10)⟩ := by
  refine ⟨rfl, by simp [compareRuns], ?_, by simp [compareRuns], by norm_num [compareRuns]⟩
  by_cases hc : cost = 0 <;> simp [compareRuns, hc]

/-! ### Helper lemmas for the mapping resolver -/

theorem resolve_eq_some_iff (attrs : String → Option String) :
    ∀ (rules : List MappingRule) (cid : String),
      resolve attrs rules = some cid ↔
        ∃ l1 r l2, rules = l1 ++ r :: l2 ∧ ruleMatches attrs r = true ∧
          cid = r.curveSetId ∧ ∀ r2 ∈ l1, ruleMatches attrs r2 = false := by
  intro rules
  induction rules with
  | nil =>
      intro cid
      simp [resolve]
  | cons r rs ih =>
      intro cid
      by_cases hm : ruleMatches attrs r = true
      · simp only [resolve, if_pos hm]
        constructor
        · intro h
          exact ⟨[], r, rs, rfl, hm, (Option.some_inj.mp h).symm, by simp⟩
        · rintro ⟨l1, r2, l2, heq, hm2, hid, hfail⟩
          cases l1 with
          | nil =>
              simp only [List.nil_append, List.cons.injEq] at heq
              rw [hid, heq.1]
          | cons a l1 =>
              simp only [List.cons_append, List.cons.injEq] at heq
              have ha : ruleMatches attrs a = false :=
                hfail a (List.mem_cons_self a l1)
              rw [heq.1] at hm
              rw [hm] at ha
              exact absurd ha (by simp)
      · have hmf : ruleMatches attrs r = false := by
          simpa using hm
        simp only [resolve, if_neg hm]
        rw [ih cid]
        constructor
        · rintro ⟨l1, r2, l2, heq, hm2, hid, hfail⟩
          refine ⟨r :: l1, r2, l2, by rw [heq]; rfl, hm2, hid, ?_⟩
          intro x hx
          rcases List.mem_cons.mp hx with hx | hx
          · rw [hx]; exact hmf
          · exact hfail x hx
        · rintro ⟨l1, r2, l2, heq, hm2, hid, hfail⟩
          cases l1 with
          | nil =>
              simp only [List.nil_append, List.cons.injEq] at heq
              rw [heq.1] at hm
              exact absurd hm2 hm
          | cons a l1 =>
              simp only [List.cons_append, List.cons.injEq] at heq
              exact ⟨l1, r2, l2, heq.2, hm2, hid,
                fun x hx => hfail x (List.mem_cons_of_mem a hx)⟩

theorem resolve_eq_none_iff (attrs : String → Option String) :
    ∀ rules : List MappingRule,
      resolve attrs rules = none ↔ ∀ r ∈ rules, ruleMatches attrs r = false := by
  intro rules
  induction rules with
  | nil => simp [resolve]
  | cons r rs ih =>
      by_cases hm : ruleMatches attrs r = true
      · simp [resolve, if_pos hm, hm]
      · have hmf : ruleMatches attrs r = false := by simpa using hm
        simp [resolve, if_neg hm, ih, hmf]

/-! ### Claim theorem C7 -/

/-- C7: `resolve` returns the curve-set identifier of the first rule (in
declared order) all of whose predicates hold — `some cid` exactly when
the rule list splits as `l1 ++ r :: l2` with every rule of `l1` failing
and `r` matching — and returns the NOT_FOUND outcome (`none`) exactly
when no rule matches; a predicate over a missing attribute evaluates
false unless it is the explicit "any" wildcard; and mapping resolution
over a building dataset yields one (possibly NOT_FOUND) outcome per
building, so an unmapped building never aborts the pass. -/
theorem resolve_spec (attrs : String → Option String) (rules : List MappingRule) :
    (∀ cid, resolve attrs rules = some cid ↔
      ∃ l1 r l2, rules = l1 ++ r :: l2 ∧ ruleMatches attrs r = true ∧
        cid = r.curveSetId ∧ ∀ r2 ∈ l1, ruleMatches attrs r2 = false) ∧
    (resolve attrs rules = none ↔ ∀ r ∈ rules, ruleMatches attrs r = false) ∧
    (∀ a f, attrs a = none → evalPred attrs (AttrPred.test a f) = false) ∧
    (∀ a, evalPred attrs (AttrPred.any a) = true) ∧
    (∀ buildings : List (String → Option String),
      (resolveAll rules buildings).length = buildings.length) := by
  refine ⟨fun cid => resolve_eq_some_iff attrs rules cid,
    resolve_eq_none_iff attrs rules, ?_, fun a => rfl, fun buildings => by
      simp [resolveAll]⟩
  intro a f ha
  simp [evalPred, ha]

/-- C7 witness: the theorem applied at a concrete attribute record and
rule list: a building with no attributes resolves to NOT_FOUND under a
rule testing a missing attribute, and an "any" wildcard still matches. -/
theorem resolve_spec_witness :
    resolve (fun _ => none) [⟨[AttrPred.test "occupancy" (fun _ => true)], "cs1"⟩] =
      none ∧
    evalPred (fun _ => none) (AttrPred.any "occupancy") = true :=
  ⟨(resolve_spec (fun _ => none)
      [⟨[AttrPred.test "occupancy" (fun _ => true)], "cs1"⟩]).2.1.mpr
      (by
        intro r hr
        simp only [List.mem_singleton] at hr
        rw [hr]
        simp [ruleMatches, evalPred]),
    (resolve_spec (fun _ => none) []).2.2.2.1 "occupancy"⟩

/-! ### Helper lemmas for the frontend helpers -/

theorem foldl_pickML_spec (v0 v1 v2 v3 : ℚ) :
    ([(⟨"DS1", "Slight", some v1, "text-yellow-600"⟩ : MLEntry),
      ⟨"DS2", "Moderate", some v2, "text-orange-600"⟩,
      ⟨"DS3", "Substantial", some v3, "text-red-600"⟩].foldl pickML
      ⟨"DS0", "No Damage", some v0, "text-green-600"⟩) =
    ⟨dsName (specMostLikelyLow v0 v1 v2 v3), dsLabel (specMostLikelyLow v0 v1 v2 v3),
      some ([v0, v1, v2, v3].getD (specMostLikelyLow v0 v1 v2 v3) 0),
      dsTextColor (specMostLikelyLow v0 v1 v2 v3)⟩ := by
  rcases le_or_lt v1 v0 with h10 | h10
  · rcases le_or_lt v2 v0 with h20 | h20
    · rcases le_or_lt v3 v0 with h30 | h30
      · simp [pickML, specMostLikelyLow, dsName, dsLabel, dsTextColor, h10, h20, h30,
          not_lt.mpr h10, not_lt.mpr h20, not_lt.mpr h30]
      · simp [pickML, specMostLikelyLow, dsName, dsLabel, dsTextColor, h30,
          not_lt.mpr h10, not_lt.mpr h20, not_le.mpr h30,
          not_le.mpr (lt_of_le_of_lt h10 h30), not_le.mpr (lt_of_le_of_lt h20 h30)]
    · rcases le_or_lt v3 v2 with h32 | h32
      · simp [pickML, specMostLikelyLow, dsName, dsLabel, dsTextColor, h20, h32,
          not_lt.mpr h10, not_lt.mpr h32, not_le.mpr h20,
          not_le.mpr (lt_of_le_of_lt h10 h20)]
      · simp [pickML, specMostLikelyLow, dsName, dsLabel, dsTextColor, h20, h32,
          not_lt.mpr h10, not_le.mpr h20, not_le.mpr h32,
          not_le.mpr (lt_of_le_of_lt h10 h20)]
  · rcases le_or_lt v2 v1 with h21 | h21
    · rcases le_or_lt v3 v1 with h31 | h31
      · simp [pickML, specMostLikelyLow, dsName, dsLabel, dsTextColor, h10, h21, h31,
          not_lt.mpr h21, not_lt.mpr h31, not_le.mpr h10]
      · simp [pickML, specMostLikelyLow, dsName, dsLabel, dsTextColor, h10, h31,
          not_lt.mpr h21, not_le.mpr h10, not_le.mpr h31,
          not_le.mpr (lt_of_le_of_lt h21 h31)]
    · rcases le_or_lt v3 v2 with h32 | h32
      · simp [pickML, specMostLikelyLow, dsName, dsLabel, dsTextColor, h10, h21, h32,
          not_lt.mpr h32, not_le.mpr h10, not_le.mpr h21]
      · simp [pickML, specMostLikelyLow, dsName, dsLabel, dsTextColor, h10, h21, h32,
          not_le.mpr h10, not_le.mpr h21, not_le.mpr h32]

theorem specMostLikelyLow_facts (v0 v1 v2 v3 : ℚ) :
    (∀ j, j < 4 → [v0, v1, v2, v3].getD j 0 ≤
      [v0, v1, v2, v3].getD (specMostLikelyLow v0 v1 v2 v3) 0) ∧
    (∀ j, j < specMostLikelyLow v0 v1 v2 v3 →
      [v0, v1, v2, v3].getD j 0 <
        [v0, v1, v2, v3].getD (specMostLikelyLow v0 v1 v2 v3) 0) := by
  simp only [specMostLikelyLow]
  split_ifs with hA hB hC
  · refine ⟨?_, ?_⟩
    · intro j hj
      interval_cases j <;> simp [List.getD] <;> linarith [hA.1, hA.2.1, hA.2.2]
    · intro j hj
      omega
  · have hv1 : v0 < v1 := by
      rcases not_and_or.mp hA with h | h
      · exact not_le.mp h
      · rcases not_and_or.mp h with h | h
        · exact lt_of_lt_of_le (not_le.mp h) hB.1
        · exact lt_of_lt_of_le (not_le.mp h) hB.2
    refine ⟨?_, ?_⟩
    · intro j hj
      interval_cases j <;> simp [List.getD] <;> linarith [hB.1, hB.2]
    · intro j hj
      interval_cases j <;> simp [List.getD] <;> linarith
  · have hv12 : v1 < v2 := by
      rcases not_and_or.mp hB with h | h
      · exact not_le.mp h
      · exact lt_of_lt_of_le (not_le.mp h) hC
    have hv02 : v0 < v2 := by
      rcases not_and_or.mp hA with h | h
      · exact lt_trans (not_le.mp h) hv12
      · rcases not_and_or.mp h with h | h
        · exact not_le.mp h
        · exact lt_of_lt_of_le (not_le.mp h) hC
    refine ⟨?_, ?_⟩
    · intro j hj
      interval_cases j <;> simp [List.getD] <;> linarith
    · intro j hj
      interval_cases j <;> simp [List.getD] <;> linarith
  · have hv23 : v2 < v3 := not_le.mp hC
    have hv13 : v1 < v3 := by
      rcases not_and_or.mp hB with h | h
      · exact lt_trans (not_le.mp h) hv23
      · exact not_le.mp h
    have hv03 : v0 < v3 := by
      rcases not_and_or.mp hA with h | h
      · exact lt_trans (not_le.mp h) hv13
      · rcases not_and_or.mp h with h | h
        · exact lt_trans (not_le.mp h) hv23
        · exact not_le.mp h
    refine ⟨?_, ?_⟩
    · intro j hj
      interval_cases j <;> simp [List.getD] <;> linarith
    · intro j hj
      interval_cases j <;> simp [List.getD] <;> linarith

theorem foldl_pickKey_spec (v : ℕ → ℚ) :
    [1, 2, 3].foldl (pickKey v) 0 = specMostLikelyHigh (v 0) (v 1) (v 2) (v 3) := by
  rcases lt_or_le (v 1) (v 0) with h01 | h01
  · rcases lt_or_le (v 2) (v 0) with h02 | h02
    · rcases lt_or_le (v 3) (v 0) with h03 | h03
      · simp [pickKey, specMostLikelyHigh, h01, h02, h03,
          not_le.mpr h01, not_le.mpr h02, not_le.mpr h03]
      · simp [pickKey, specMostLikelyHigh, h01, h02, h03, not_lt.mpr h03,
          le_trans (le_of_lt h01) h03, le_trans (le_of_lt h02) h03]
    · rcases lt_or_le (v 3) (v 2) with h23 | h23
      · simp [pickKey, specMostLikelyHigh, h01, h02, h23, not_lt.mpr h02,
          not_le.mpr h23, le_of_lt (lt_of_lt_of_le h01 h02)]
      · simp [pickKey, specMostLikelyHigh, h01, h02, h23, not_lt.mpr h02,
          not_lt.mpr h23, le_trans h02 h23,
          le_trans (le_of_lt (lt_of_lt_of_le h01 h02)) h23]
  · rcases lt_or_le (v 2) (v 1) with h12 | h12
    · rcases lt_or_le (v 3) (v 1) with h13 | h13
      · simp [pickKey, specMostLikelyHigh, h01, h12, h13, not_lt.mpr h01,
          not_le.mpr h13, not_le.mpr h12]
      · simp [pickKey, specMostLikelyHigh, h01, h12, h13, not_lt.mpr h01,
          le_trans h01 h13, le_trans (le_of_lt h12) h13]
    · rcases lt_or_le (v 3) (v 2) with h23 | h23
      · simp [pickKey, specMostLikelyHigh, h01, h12, h23, not_lt.mpr h01,
          not_lt.mpr h12, not_le.mpr h23, le_trans h01 h12]
      · simp [pickKey, specMostLikelyHigh, h01, h12, h23, not_lt.mpr h01,
          not_lt.mpr h12, not_lt.mpr h23, le_trans h01 (le_trans h12 h23),
          le_trans h12 h23]

/-! ### Claim theorems C9 and C10 -/

/-- C9: `getMostLikelyDamageState`, on a record whose four probabilities
are all numeric (in particular `P_DS0` non-null), returns the label (and
probability and text color) of the damage state with the maximum
probability among DS0..DS3, and the selected index is the
lowest-severity state among those tied for the maximum (every earlier
state is strictly smaller); when `P_DS0` is null it returns the `Error`
state with probability 0. -/
theorem getMostLikelyDamageState_spec (ds : DamageStatesRec) (v0 v1 v2 v3 : ℚ)
    (h0 : ds.P_DS0 = some v0) (h1 : ds.P_DS1 = some v1)
    (h2 : ds.P_DS2 = some v2) (h3 : ds.P_DS3 = some v3) :
    getMostLikelyDamageState ds =
      ⟨dsLabel (specMostLikelyLow v0 v1 v2 v3),
        some ([v0, v1, v2, v3].getD (specMostLikelyLow v0 v1 v2 v3) 0),
        dsTextColor (specMostLikelyLow v0 v1 v2 v3)⟩ ∧
    (∀ j, j < 4 → [v0, v1, v2, v3].getD j 0 ≤
      [v0, v1, v2, v3].getD (specMostLikelyLow v0 v1 v2 v3) 0) ∧
    (∀ j, j < specMostLikelyLow v0 v1 v2 v3 →
      [v0, v1, v2, v3].getD j 0 <
        [v0, v1, v2, v3].getD (specMostLikelyLow v0 v1 v2 v3) 0) ∧
    (∀ e : DamageStatesRec, e.P_DS0 = none →
      getMostLikelyDamageState e = ⟨"Error", some 0, "text-gray-500"⟩) := by
  obtain ⟨d0, d1, d2, d3⟩ := ds
  simp only at h0 h1 h2 h3
  subst h0 h1 h2 h3
  refine ⟨?_, (specMostLikelyLow_facts v0 v1 v2 v3).1,
    (specMostLikelyLow_facts v0 v1 v2 v3).2, ?_⟩
  · simp only [getMostLikelyDamageState,
      if_neg (show ¬(some v0 = none) by simp)]
    rw [foldl_pickML_spec]
  · intro e he
    obtain ⟨e0, e1, e2, e3⟩ := e
    simp only at he
    subst he
    simp [getMostLikelyDamageState]

/-- C9 witness: the theorem applied to a concrete record. -/
theorem getMostLikelyDamageState_spec_witness :
    getMostLikelyDamageState ⟨some (1/2), some (1/4), some (1/8), some (1/8)⟩ =
      ⟨"No Damage", some (1/2), "text-green-600"⟩ :=
  ((getMostLikelyDamageState_spec ⟨some (1/2), some (1/4), some (1/8), some (1/8)⟩
      (1/2) (1/4) (1/8) (1/8) rfl rfl rfl rfl).1).trans
    (by norm_num [specMostLikelyLow, dsLabel, dsTextColor, List.getD])

/-- C10 counterexample: on a feature with no error and the tied numeric
probabilities `P_DS0 = P_DS1 = 0.5`, `getFeatureStyle` fills with the
DS1 color (yellow), not the color of the lowest-severity tied state DS0
(green) as the claim's tie-breaking direction states. -/
theorem getFeatureStyle_tie_cex :
    (getFeatureStyle (some ⟨false, JVal.num (1/2), JVal.num (1/2),
        JVal.num 0, JVal.num 0⟩)).fillColor = "#FFFF00" ∧
    dsColorHex (specMostLikelyLow (1/2) (1/2) 0 0) = "#00FF00" ∧
    ("#FFFF00" : String) ≠ "#00FF00" := by
  refine ⟨?_, by norm_num [specMostLikelyLow, dsColorHex], by decide⟩
  have hne : JVal.num ((1 : ℚ)/2) ≠ JVal.undef := by decide
  norm_num [getFeatureStyle, pickKey, JVal.toNum, dsColorHex, hne]

/-- C10 (amended): `getFeatureStyle` is total and deterministic,
returning radius 6, stroke "#000", weight 1, opacity 1 and
fillOpacity 0.8 for every feature; the fill is the error grey when the
properties are absent, when the error field is truthy (even if
probabilities are present), or when `P_DS0` is undefined; otherwise it
is the color of the most likely damage state with ties resolved toward
the higher-severity state. -/
theorem getFeatureStyle_spec (props : Option FeatureProps) :
    (getFeatureStyle props).radius = 6 ∧
    (getFeatureStyle props).color = "#000" ∧
    (getFeatureStyle props).weight = 1 ∧
    (getFeatureStyle props).opacity = 1 ∧
    (getFeatureStyle props).fillOpacity = 8/10 ∧
    (props = none → (getFeatureStyle props).fillColor = "#808080") ∧
    (∀ p, props = some p → p.error = true →
      (getFeatureStyle props).fillColor = "#808080") ∧
    (∀ p, props = some p → p.error = false → p.P_DS0 = JVal.undef →
      (getFeatureStyle props).fillColor = "#808080") ∧
    (∀ p, props = some p → p.error = false → p.P_DS0 ≠ JVal.undef →
      (getFeatureStyle props).fillColor =
        dsColorHex (specMostLikelyHigh p.P_DS0.toNum p.P_DS1.toNum
          p.P_DS2.toNum p.P_DS3.toNum)) := by
  refine ⟨rfl, rfl, rfl, rfl, rfl, ?_, ?_, ?_, ?_⟩
  · intro h
    subst h
    rfl
  · intro p hp he
    subst hp
    simp [getFeatureStyle, he]
  · intro p hp he h0
    subst hp
    simp [getFeatureStyle, he, h0]
  · intro p hp he h0
    subst hp
    obtain ⟨perr, p0, p1, p2, p3⟩ := p
    simp only at he h0 ⊢
    subst he
    simp only [getFeatureStyle, Bool.false_eq_true, if_false, if_neg, ne_eq, h0,
      not_false_eq_true, if_true, if_pos]
    rw [foldl_pickKey_spec]

/-- C10 witness: the amended theorem applied to a concrete feature. -/
theorem getFeatureStyle_spec_witness :
    (getFeatureStyle (some ⟨false, JVal.num (1/4), JVal.num (1/2),
        JVal.num 0, JVal.num 0⟩)).fillColor =
      dsColorHex (specMostLikelyHigh ((JVal.num (1/4)).toNum)
        ((JVal.num (1/2)).toNum) ((JVal.num 0).toNum) ((JVal.num 0).toNum)) ∧
    (getFeatureStyle none).fillColor = "#808080" :=
  ⟨(getFeatureStyle_spec (some ⟨false, JVal.num (1/4), JVal.num (1/2),
      JVal.num 0, JVal.num 0⟩)).2.2.2.2.2.2.2.2 _ rfl rfl (by decide),
    (getFeatureStyle_spec none).2.2.2.2.2.1 rfl⟩

/-! ### Helper lemmas for the standard normal CDF -/

theorem gauss_continuous : Continuous fun t : ℝ => Real.exp (-(1/2) * t ^ 2) := by
  fun_prop

theorem gauss_integrable : Integrable fun t : ℝ => Real.exp (-(1/2) * t ^ 2) := by
  simpa using integrable_exp_neg_mul_sq (show (0 : ℝ) < 1/2 by norm_num)

theorem gauss_intervalIntegrable (a b : ℝ) :
    IntervalIntegrable (fun t : ℝ => Real.exp (-(1/2) * t ^ 2)) volume a b :=
  gauss_continuous.intervalIntegrable a b

theorem sqrt_two_pi_pos : 0 < Real.sqrt (2 * π) :=
  Real.sqrt_pos.mpr (by positivity)

theorem normCdf_sub (a b : ℝ) :
    normCdf b - normCdf a =
      (Real.sqrt (2 * π))⁻¹ * ∫ t in a..b, Real.exp (-(1/2) * t ^ 2) := by
  rw [normCdf, normCdf, ← mul_sub,
    intervalIntegral.integral_Iic_sub_Iic gauss_integrable.integrableOn
      gauss_integrable.integrableOn]

theorem normCdf_mono {a b : ℝ} (h : a ≤ b) : normCdf a ≤ normCdf b := by
  have hI : 0 ≤ ∫ t in a..b, Real.exp (-(1/2) * t ^ 2) :=
    intervalIntegral.integral_nonneg h fun u _ => (Real.exp_pos _).le
  have h2 : 0 ≤ normCdf b - normCdf a := by
    rw [normCdf_sub a b]
    exact mul_nonneg (inv_nonneg.mpr sqrt_two_pi_pos.le) hI
  linarith

theorem normCdf_nonneg (z : ℝ) : 0 ≤ normCdf z :=
  mul_nonneg (inv_nonneg.mpr sqrt_two_pi_pos.le)
    (setIntegral_nonneg measurableSet_Iic fun t _ => (Real.exp_pos _).le)

theorem gauss_integral_total :
    ∫ t : ℝ, Real.exp (-(1/2) * t ^ 2) = Real.sqrt (2 * π) := by
  rw [integral_gaussian (1/2 : ℝ), show π / (1/2 : ℝ) = 2 * π by ring]

theorem gauss_integral_Iic_zero :
    ∫ t in Iic (0 : ℝ), Real.exp (-(1/2) * t ^ 2) = Real.sqrt (2 * π) / 2 := by
  have hIoi : ∫ t in Ioi (0 : ℝ), Real.exp (-(1/2) * t ^ 2) =
      Real.sqrt (2 * π) / 2 := by
    rw [integral_gaussian_Ioi (1/2 : ℝ), show π / (1/2 : ℝ) = 2 * π by ring]
  have hsplit := intervalIntegral.integral_Iic_add_Ioi
    (b := (0 : ℝ)) gauss_integrable.integrableOn gauss_integrable.integrableOn
  rw [gauss_integral_total, hIoi] at hsplit
  linarith

theorem normCdf_eq (z : ℝ) :
    normCdf z = 1/2 +
      (Real.sqrt (2 * π))⁻¹ * ∫ t in (0 : ℝ)..z, Real.exp (-(1/2) * t ^ 2) := by
  have h := normCdf_sub 0 z
  have h0 : normCdf 0 = 1/2 := by
    rw [normCdf, gauss_integral_Iic_zero]
    field_simp
  linarith

theorem poly_integral (A B C D E c : ℝ) :
    ∫ t in (0 : ℝ)..c, (A + B * t ^ 2 + C * t ^ 4 + D * t ^ 6 + E * t ^ 8) =
      A * c + B * c ^ 3 / 3 + C * c ^ 5 / 5 + D * c ^ 7 / 7 + E * c ^ 9 / 9 := by
  have hA : IntervalIntegrable (fun _ : ℝ => A) volume 0 c := intervalIntegrable_const
  have hB : IntervalIntegrable (fun t : ℝ => B * t ^ 2) volume 0 c :=
    Continuous.intervalIntegrable (by fun_prop) 0 c
  have hC : IntervalIntegrable (fun t : ℝ => C * t ^ 4) volume 0 c :=
    Continuous.intervalIntegrable (by fun_prop) 0 c
  have hD : IntervalIntegrable (fun t : ℝ => D * t ^ 6) volume 0 c :=
    Continuous.intervalIntegrable (by fun_prop) 0 c
  have hE : IntervalIntegrable (fun t : ℝ => E * t ^ 8) volume 0 c :=
    Continuous.intervalIntegrable (by fun_prop) 0 c
  rw [intervalIntegral.integral_add (((hA.add hB).add hC).add hD) hE,
    intervalIntegral.integral_add ((hA.add hB).add hC) hD,
    intervalIntegral.integral_add (hA.add hB) hC,
    intervalIntegral.integral_add hA hB,
    intervalIntegral.integral_const_mul, intervalIntegral.integral_const_mul,
    intervalIntegral.integral_const_mul, intervalIntegral.integral_const,
    integral_pow, integral_pow, integral_pow]
  simp only [smul_eq_mul]
  norm_num
  ring

theorem exp_quadratic_bounds {t : ℝ} (ht : t ^ 2 ≤ 2) :
    1 - t ^ 2/2 + t ^ 4/8 - t ^ 6/48 - 5 * t ^ 8/1536 ≤
      Real.exp (-(1/2) * t ^ 2) ∧
    Real.exp (-(1/2) * t ^ 2) ≤
      1 - t ^ 2/2 + t ^ 4/8 - t ^ 6/48 + 5 * t ^ 8/1536 := by
  have hx0 : -(1/2) * t ^ 2 ≤ 0 := by nlinarith [sq_nonneg t]
  have habs : |(-(1/2) * t ^ 2)| ≤ 1 := by
    rw [abs_of_nonpos hx0]
    nlinarith
  have h := Real.exp_bound habs (show 0 < 4 by norm_num)
  have hsum : ∑ m ∈ Finset.range 4, (-(1/2) * t ^ 2) ^ m / m.factorial =
      1 - t ^ 2/2 + t ^ 4/8 - t ^ 6/48 := by
    simp [Finset.sum_range_succ, Nat.factorial]
    ring
  have habs4 : |(-(1/2) * t ^ 2)| ^ 4 = t ^ 8/16 := by
    rw [abs_of_nonpos hx0]
    ring
  rw [hsum, habs4] at h
  norm_num [Nat.factorial] at h
  rw [abs_sub_le_iff] at h
  constructor <;>
    · rw [show (-(1/2) * t ^ 2 : ℝ) = -(1/2 * t ^ 2) by ring]
      linarith [h.1, h.2]

theorem exp_small_bounds (x : ℝ) (h0 : 0 ≤ x) (h1 : x ≤ 1) :
    1 + x + x ^ 2/2 + x ^ 3/6 - 5 * x ^ 4/96 ≤ Real.exp x ∧
    Real.exp x ≤ 1 + x + x ^ 2/2 + x ^ 3/6 + 5 * x ^ 4/96 := by
  have habs : |x| ≤ 1 := by
    rw [abs_of_nonneg h0]
    exact h1
  have h := Real.exp_bound habs (show 0 < 4 by norm_num)
  have hsum : ∑ m ∈ Finset.range 4, x ^ m / m.factorial =
      1 + x + x ^ 2/2 + x ^ 3/6 := by
    simp [Finset.sum_range_succ, Nat.factorial]
    try ring
  have habs4 : |x| ^ 4 = x ^ 4 := by
    rw [abs_of_nonneg h0]
  rw [hsum, habs4] at h
  norm_num [Nat.factorial] at h
  rw [abs_sub_le_iff] at h
  constructor <;> nlinarith [h.1, h.2]

theorem exp_10986_lt : Real.exp 1.0986 < 3 := by
  have hsplit : Real.exp (1.0986 : ℝ) = Real.exp 1 * Real.exp 0.0986 := by
    rw [← Real.exp_add]
    norm_num
  have hb := (exp_small_bounds 0.0986 (by norm_num) (by norm_num)).2
  have he1 : Real.exp 1 < 2.7182818286 := Real.exp_one_lt_d9
  have hU : (0 : ℝ) < 1 + 0.0986 + 0.0986 ^ 2/2 + 0.0986 ^ 3/6 + 5 * 0.0986 ^ 4/96 := by
    norm_num
  calc Real.exp (1.0986 : ℝ)
      = Real.exp 1 * Real.exp 0.0986 := hsplit
    _ ≤ Real.exp 1 *
        (1 + 0.0986 + 0.0986 ^ 2/2 + 0.0986 ^ 3/6 + 5 * 0.0986 ^ 4/96) :=
        mul_le_mul_of_nonneg_left hb (Real.exp_pos 1).le
    _ < 2.7182818286 *
        (1 + 0.0986 + 0.0986 ^ 2/2 + 0.0986 ^ 3/6 + 5 * 0.0986 ^ 4/96) :=
        mul_lt_mul_of_pos_right he1 hU
    _ < 3 := by norm_num

theorem exp_10987_gt : (3 : ℝ) < Real.exp 1.0987 := by
  have hsplit : Real.exp (1.0987 : ℝ) = Real.exp 1 * Real.exp 0.0987 := by
    rw [← Real.exp_add]
    norm_num
  have hb := (exp_small_bounds 0.0987 (by norm_num) (by norm_num)).1
  have he1 : (2.7182818283 : ℝ) < Real.exp 1 := Real.exp_one_gt_d9
  have hL : (0 : ℝ) < 1 + 0.0987 + 0.0987 ^ 2/2 + 0.0987 ^ 3/6 - 5 * 0.0987 ^ 4/96 := by
    norm_num
  calc (3 : ℝ)
      < 2.7182818283 *
        (1 + 0.0987 + 0.0987 ^ 2/2 + 0.0987 ^ 3/6 - 5 * 0.0987 ^ 4/96) := by
        norm_num
    _ < Real.exp 1 *
        (1 + 0.0987 + 0.0987 ^ 2/2 + 0.0987 ^ 3/6 - 5 * 0.0987 ^ 4/96) :=
        mul_lt_mul_of_pos_right he1 hL
    _ ≤ Real.exp 1 * Real.exp 0.0987 :=
        mul_le_mul_of_nonneg_left hb (Real.exp_pos 1).le
    _ = Real.exp (1.0987 : ℝ) := hsplit.symm

theorem log_three_gt : (1.0986 : ℝ) < Real.log 3 :=
  (Real.lt_log_iff_exp_lt (by norm_num)).mpr exp_10986_lt

theorem log_three_lt : Real.log 3 < 1.0987 :=
  (Real.log_lt_iff_lt_exp (by norm_num)).mpr exp_10987_gt

theorem gauss_int_lower :
    (0.911 : ℝ) ≤ ∫ t in (0 : ℝ)..1.0986, Real.exp (-(1/2) * t ^ 2) := by
  have hpoly : IntervalIntegrable
      (fun t : ℝ => 1 + (-1/2) * t ^ 2 + (1/8) * t ^ 4 + (-1/48) * t ^ 6 +
        (-5/1536) * t ^ 8) volume 0 1.0986 :=
    Continuous.intervalIntegrable (by fun_prop) 0 1.0986
  have hmono := intervalIntegral.integral_mono_on
    (show (0 : ℝ) ≤ 1.0986 by norm_num) hpoly (gauss_intervalIntegrable 0 1.0986)
    (fun t ht => by
      have hb := (exp_quadratic_bounds
        (show t ^ 2 ≤ 2 by nlinarith [ht.1, ht.2])).1
      linarith)
  rw [poly_integral] at hmono
  refine le_trans ?_ hmono
  norm_num

theorem gauss_int_upper :
    ∫ t in (0 : ℝ)..1.0987, Real.exp (-(1/2) * t ^ 2) ≤ 0.9128 := by
  have hpoly : IntervalIntegrable
      (fun t : ℝ => 1 + (-1/2) * t ^ 2 + (1/8) * t ^ 4 + (-1/48) * t ^ 6 +
        (5/1536) * t ^ 8) volume 0 1.0987 :=
    Continuous.intervalIntegrable (by fun_prop) 0 1.0987
  have hmono := intervalIntegral.integral_mono_on
    (show (0 : ℝ) ≤ 1.0987 by norm_num) (gauss_intervalIntegrable 0 1.0987) hpoly
    (fun t ht => by
      have hb := (exp_quadratic_bounds
        (show t ^ 2 ≤ 2 by nlinarith [ht.1, ht.2])).2
      linarith)
  rw [poly_integral] at hmono
  refine le_trans hmono ?_
  norm_num

theorem gauss_int_log3_lower :
    (0.911 : ℝ) ≤ ∫ t in (0 : ℝ)..Real.log 3, Real.exp (-(1/2) * t ^ 2) := by
  have hsplit := intervalIntegral.integral_add_adjacent_intervals
    (gauss_intervalIntegrable 0 1.0986) (gauss_intervalIntegrable 1.0986 (Real.log 3))
  have hpos : 0 ≤ ∫ t in (1.0986 : ℝ)..Real.log 3, Real.exp (-(1/2) * t ^ 2) :=
    intervalIntegral.integral_nonneg log_three_gt.le fun u _ => (Real.exp_pos _).le
  have hlow := gauss_int_lower
  linarith

theorem gauss_int_log3_upper :
    ∫ t in (0 : ℝ)..Real.log 3, Real.exp (-(1/2) * t ^ 2) ≤ 0.9128 := by
  have hsplit := intervalIntegral.integral_add_adjacent_intervals
    (gauss_intervalIntegrable 0 (Real.log 3)) (gauss_intervalIntegrable (Real.log 3) 1.0987)
  have hpos : 0 ≤ ∫ t in (Real.log 3)..(1.0987 : ℝ), Real.exp (-(1/2) * t ^ 2) :=
    intervalIntegral.integral_nonneg log_three_lt.le fun u _ => (Real.exp_pos _).le
  have hup := gauss_int_upper
  linarith

theorem sqrt_two_pi_lt : Real.sqrt (2 * π) < 2.50664 :=
  (Real.sqrt_lt' (by norm_num)).mpr (by nlinarith [Real.pi_lt_d6])

theorem sqrt_two_pi_gt : (2.5066 : ℝ) < Real.sqrt (2 * π) :=
  (Real.lt_sqrt (by norm_num)).mpr (by nlinarith [Real.pi_gt_d6])

theorem normCdf_log3_bounds : |normCdf (Real.log 3) - 0.864| < 1/1000 := by
  have heq := normCdf_eq (Real.log 3)
  have hlo := gauss_int_log3_lower
  have hup := gauss_int_log3_upper
  have hc1 := sqrt_two_pi_gt
  have hc2 := sqrt_two_pi_lt
  have hcpos : (0 : ℝ) < Real.sqrt (2 * π) := sqrt_two_pi_pos
  have hIpos : (0 : ℝ) ≤ ∫ t in (0 : ℝ)..Real.log 3, Real.exp (-(1/2) * t ^ 2) := by
    linarith
  have hinv : (Real.sqrt (2 * π))⁻¹ *
      (∫ t in (0 : ℝ)..Real.log 3, Real.exp (-(1/2) * t ^ 2)) =
      (∫ t in (0 : ℝ)..Real.log 3, Real.exp (-(1/2) * t ^ 2)) /
        Real.sqrt (2 * π) := by
    rw [inv_mul_eq_div]
  have hlow2 : (0.911 : ℝ) / 2.50664 ≤
      (∫ t in (0 : ℝ)..Real.log 3, Real.exp (-(1/2) * t ^ 2)) /
        Real.sqrt (2 * π) :=
    div_le_div hIpos hlo hcpos hc2.le
  have hup2 : (∫ t in (0 : ℝ)..Real.log 3, Real.exp (-(1/2) * t ^ 2)) /
      Real.sqrt (2 * π) ≤ (0.9128 : ℝ) / 2.5066 :=
    div_le_div (by norm_num) hup (by norm_num) hc1.le
  rw [heq, hinv]
  rw [abs_lt]
  constructor
  · have : (0.363 : ℝ) < 0.911 / 2.50664 := by norm_num
    linarith
  · have : (0.9128 : ℝ) / 2.5066 < 0.3642 := by norm_num
    linarith

theorem map_getD_mono {α : Type} (f g : α → ℝ) (l : List α)
    (h : ∀ x ∈ l, f x ≤ g x) (i : ℕ) :
    (l.map f).getD i 0 ≤ (l.map g).getD i 0 := by
  induction l generalizing i with
  | nil => simp
  | cons a l ih =>
      cases i with
      | zero => simpa using h a (List.mem_cons_self a l)
      | succ j => simpa using ih (fun x hx => h x (List.mem_cons_of_mem a hx)) j

theorem evalRule_antitone (demand elev δ : ℝ) (hδ : 0 ≤ δ) (r : FragilityRule)
    (hβ : 0 < r.beta) :
    evalRule demand (elev + δ) r ≤ evalRule demand elev r := by
  by_cases h2 : 0 < demand - (elev + δ)
  · have h1 : 0 < demand - elev := by linarith
    simp only [evalRule]
    rw [if_pos h2, if_pos h1]
    apply normCdf_mono
    apply (div_le_div_right hβ).mpr
    have hlog : Real.log (demand - (elev + δ)) ≤ Real.log (demand - elev) :=
      (Real.log_le_log_iff h2 h1).mpr (by linarith)
    linarith
  · simp only [evalRule]
    rw [if_neg h2]
    split_ifs with h1
    · exact normCdf_nonneg _
    · exact le_refl 0

/-! ### Claim theorems C5, C6 and C8 -/

/-- C5: for a limit-state rule whose guard (`demand - reference > 0`)
holds, the exceedance probability is exactly
`Φ((ln(demand - reference) - μ)/β)` with Φ the standard normal CDF; in
particular for demand 3.0, reference 0.0, μ = 0, β = 1 the exceedance
probability is `Φ(ln 3)`, which lies within 1/1000 of 0.864. -/
theorem evalRule_guard_true (demand refElev mu beta : ℝ)
    (h : 0 < demand - refElev) :
    evalRule demand refElev ⟨mu, beta⟩ =
      normCdf ((Real.log (demand - refElev) - mu) / beta) ∧
    |evalRule 3 0 ⟨0, 1⟩ - 0.864| < 1/1000 := by
  constructor
  · simp [evalRule, h]
  · have hval : evalRule 3 0 ⟨0, 1⟩ = normCdf (Real.log 3) := by
      simp only [evalRule]
      rw [if_pos (by norm_num : (0 : ℝ) < 3 - 0)]
      norm_num
    rw [hval]
    exact normCdf_log3_bounds

/-- C5 witness: the theorem applied at demand 3.0, reference 0.0, μ = 0,
β = 1. -/
theorem evalRule_guard_true_witness :
    evalRule 3 0 ⟨0, 1⟩ = normCdf ((Real.log (3 - 0) - 0) / 1) ∧
    |evalRule 3 0 ⟨0, 1⟩ - 0.864| < 1/1000 :=
  evalRule_guard_true 3 0 0 1 (by norm_num)

/-- C6: when the guard condition is false — that is, whenever the
demand-minus-reference quantity `x` satisfies `x ≤ 0` — the rule
evaluates to exceedance probability 0; the logarithm is never applied to
a non-positive argument (the definition only takes `ln x` under the
guard `0 < x`), so no NaN or error value arises. -/
theorem evalRule_guard_false (demand refElev : ℝ) (r : FragilityRule)
    (h : demand - refElev ≤ 0) : evalRule demand refElev r = 0 := by
  simp only [evalRule]
  rw [if_neg (not_lt.mpr h)]

/-- C6 witness: a rule with demand below the reference evaluates to 0. -/
theorem evalRule_guard_false_witness : evalRule 0 1 ⟨0, 1⟩ = 0 :=
  evalRule_guard_false 0 1 ⟨0, 1⟩ (by norm_num)

/-- C8 (amended): an elevation intervention with non-negative delta never
increases any limit-state exceedance probability (each curve's β being
positive): the adjustment shifts every exceedance — and hence the
probability of reaching or exceeding any damage state — downward.
Individual intermediate damage-state probabilities can still increase
(see the counterexample), so the claim holds for the exceedance /
reach-or-exceed probabilities rather than for every single damage-state
probability. -/
theorem evalCurveSet_elevation_antitone (curves : List FragilityRule)
    (demand elev δ : ℝ) (hδ : 0 ≤ δ) (hβ : ∀ r ∈ curves, 0 < r.beta) (i : ℕ) :
    (evalCurveSet curves demand (adjustedElevation elev [δ])).getD i 0 ≤
      (evalCurveSet curves demand elev).getD i 0 := by
  have hadj : adjustedElevation elev [δ] = elev + δ := by
    simp [adjustedElevation]
  rw [hadj]
  exact map_getD_mono _ _ curves
    (fun r hr => evalRule_antitone demand elev δ hδ r (hβ r hr)) i

/-- C8 witness: the amended theorem applied to a concrete one-curve set. -/
theorem evalCurveSet_elevation_antitone_witness :
    (evalCurveSet [⟨0, 1⟩] 1 (adjustedElevation 0 [1])).getD 0 0 ≤
      (evalCurveSet [⟨0, 1⟩] 1 0).getD 0 0 :=
  evalCurveSet_elevation_antitone [⟨0, 1⟩] 1 0 1 (by norm_num)
    (fun r hr => by
      simp only [List.mem_singleton] at hr
      rw [hr]
      exact one_pos) 0

/-- C8 counterexample: with the two-limit-state curve set
μ₀ = −1, μ₁ = 1, β = 1, demand e², baseline elevation 0 and an elevation
intervention of positive delta e² − 1, the probability of the
intermediate damage state DS1 strictly increases (from Φ(3) − Φ(1) to
Φ(1) − Φ(−1)), refuting "never increases any higher-severity
damage-state probability" for individual damage states. -/
theorem elevation_ds1_increase_cex :
    (0 : ℝ) < Real.exp 2 - 1 ∧
    (toDamageStates (evalCurveSet [⟨-1, 1⟩, ⟨1, 1⟩] (Real.exp 2) 0)).getD 1 0 <
      (toDamageStates (evalCurveSet [⟨-1, 1⟩, ⟨1, 1⟩] (Real.exp 2)
        (adjustedElevation 0 [Real.exp 2 - 1]))).getD 1 0 := by
  have hexp3 : (3 : ℝ) ≤ Real.exp 2 := by
    have h := Real.add_one_le_exp (2 : ℝ)
    linarith
  refine ⟨by linarith, ?_⟩
  have hadj : adjustedElevation 0 [Real.exp 2 - 1] = Real.exp 2 - 1 := by
    simp [adjustedElevation]
  have hb0 : evalRule (Real.exp 2) 0 ⟨-1, 1⟩ = normCdf 3 := by
    simp only [evalRule]
    rw [if_pos (by linarith : (0 : ℝ) < Real.exp 2 - 0)]
    norm_num [Real.log_exp]
  have hb1 : evalRule (Real.exp 2) 0 ⟨1, 1⟩ = normCdf 1 := by
    simp only [evalRule]
    rw [if_pos (by linarith : (0 : ℝ) < Real.exp 2 - 0)]
    norm_num [Real.log_exp]
  have hx1 : Real.exp 2 - (Real.exp 2 - 1) = 1 := by ring
  have ha0 : evalRule (Real.exp 2) (Real.exp 2 - 1) ⟨-1, 1⟩ = normCdf 1 := by
    simp only [evalRule]
    rw [hx1, if_pos one_pos]
    norm_num [Real.log_one]
  have ha1 : evalRule (Real.exp 2) (Real.exp 2 - 1) ⟨1, 1⟩ = normCdf (-1) := by
    simp only [evalRule]
    rw [hx1, if_pos one_pos]
    norm_num [Real.log_one]
  rw [hadj]
  simp only [evalCurveSet, List.map_cons, List.map_nil, hb0, hb1, ha0, ha1,
    toDamageStates, dsGo, List.getD_cons_succ, List.getD_cons_zero]
  have hA : (5/3 : ℝ) / Real.sqrt (2 * π) ≤ normCdf 1 - normCdf (-1) := by
    rw [normCdf_sub (-1) 1, inv_mul_eq_div]
    apply (div_le_div_right sqrt_two_pi_pos).mpr
    have hply : IntervalIntegrable (fun t : ℝ => 1 + (-1/2) * t ^ 2)
        volume (-1) 1 := Continuous.intervalIntegrable (by fun_prop) (-1) 1
    have hm := intervalIntegral.integral_mono_on (show (-1 : ℝ) ≤ 1 by norm_num)
      hply (gauss_intervalIntegrable (-1) 1)
      (fun t ht => by
        have := Real.add_one_le_exp (-(1/2) * t ^ 2)
        linarith)
    have hval : ∫ t in (-1 : ℝ)..1, (1 + (-1/2) * t ^ 2) = 5/3 := by
      rw [intervalIntegral.integral_add intervalIntegrable_const
        (Continuous.intervalIntegrable (by fun_prop) (-1) 1),
        intervalIntegral.integral_const_mul, integral_pow,
        intervalIntegral.integral_const]
      norm_num
    rw [hval] at hm
    exact hm
  have hB : normCdf 3 - normCdf 1 ≤ (1.2132 : ℝ) / Real.sqrt (2 * π) := by
    rw [normCdf_sub 1 3, inv_mul_eq_div]
    apply (div_le_div_right sqrt_two_pi_pos).mpr
    have hehalf : Real.exp (-(1/2) : ℝ) < 0.6066 := by
      have hsq : Real.exp (-(1/2) : ℝ) ^ 2 = Real.exp (-1) := by
        rw [sq, ← Real.exp_add]
        norm_num
      have he1 : Real.exp (-1 : ℝ) < 0.3678794412 := Real.exp_neg_one_lt_d9
      nlinarith [Real.exp_pos (-(1/2) : ℝ)]
    have hconst : IntervalIntegrable (fun _ : ℝ => Real.exp (-(1/2) : ℝ))
        volume 1 3 := intervalIntegrable_const
    have hm := intervalIntegral.integral_mono_on (show (1 : ℝ) ≤ 3 by norm_num)
      (gauss_intervalIntegrable 1 3) hconst
      (fun t ht => by
        apply Real.exp_le_exp.mpr
        nlinarith [ht.1, ht.2])
    rw [intervalIntegral.integral_const] at hm
    norm_num at hm
    have hm2 : ∫ t in (1 : ℝ)..3, Real.exp (-(1/2) * t ^ 2) ≤
        2 * Real.exp (-(1/2) : ℝ) := by
      simpa using hm
    linarith
  have h1 : 0 ≤ normCdf 3 - normCdf 1 := sub_nonneg.mpr (normCdf_mono (by norm_num))
  have hApos : (0 : ℝ) < normCdf 1 - normCdf (-1) :=
    lt_of_lt_of_le (by positivity) hA
  rw [max_eq_left h1, max_eq_left hApos.le]
  have hstep : (1.2132 : ℝ) / Real.sqrt (2 * π) < (5/3) / Real.sqrt (2 * π) :=
    (div_lt_div_right sqrt_two_pi_pos).mpr (by norm_num)
  linarith

end Resilink
